import Mathlib

/-!
Verification of the audit record lifecycle of the ISO 27001 / ISO 27002
audit application (`streamlit_app.py`): schema migration of persisted
tables, reconciliation of a control catalogue with a prior log, report
generation (compliance percentage, category counts, gap analysis) and
versioned log persistence, shallowly embedded in Lean.

Strings are modelled as Lean `String`; pandas DataFrames as an ordered
column list with aligned rows; the filesystem as an association list from
paths to file contents; Python exceptions as `Except` / `Option` results.
-/

/-- One control of the static catalogue: the tuples of `ISO_27001_CONTROLS`
and `ISO_27002_CONTROLS` (id, name, description). -/
structure Control where
  id : String
  name : String
  description : String
deriving DecidableEq, Repr

/-- One row of a working set, mirroring the canonical columns of the
persisted table and the dictionaries built by `conduct_audit`
(Organization, Standard, Control ID, Control Name, Compliance, Risk Level,
Evidence/Remarks, Remediation Plan, Auditor). -/
structure AuditRecord where
  organization : String
  standard : String
  controlId : String
  controlName : String
  compliance : String
  riskLevel : String
  evidence : String
  remediationPlan : String
  auditor : String
deriving DecidableEq, Repr

/-! ### Report engine (`generate_report`) -/

/-- Count of records whose Compliance equals "Yes":
`df[df['Compliance'] == 'Yes'].shape[0]` (line 122). -/
def yesCount (records : List AuditRecord) : Nat :=
  (records.filter (fun r => r.compliance == "Yes")).length

/-- Overall compliance percentage:
`(implemented_count / total_controls) * 100 if total_controls > 0 else 0`
(line 124), with Python float division modelled over `ℚ`. -/
def compliance_percentage (records : List AuditRecord) : ℚ :=
  if records.length > 0 then
    ((yesCount records : ℚ) / (records.length : ℚ)) * 100
  else 0

/-- Gap list: `df[df['Compliance'] == 'No']` (line 129), the boolean-mask
row selection of a pandas DataFrame, which keeps rows in input order. -/
def gaps (records : List AuditRecord) : List AuditRecord :=
  records.filter (fun r => r.compliance == "No")

/-- Distinct values of a column in first-seen order (the grouping step of
`Series.value_counts`). -/
def firstSeen (xs : List String) : List String :=
  xs.foldl (fun acc x => if x ∈ acc then acc else acc ++ [x]) []

/-- Embedding of `df['Compliance'].value_counts()` (line 115): counts of
each distinct value, sorted by count in descending order (pandas documents
the result as descending by frequency; ties keep first-appearance order,
modelled here by a stable sort). -/
def value_counts (xs : List String) : List (String × Nat) :=
  List.insertionSort (fun a b => b.2 ≤ a.2)
    ((firstSeen xs).map (fun v => (v, xs.count v)))

/-- Category counts feeding the compliance pie chart (line 115). -/
def category_counts (records : List AuditRecord) : List (String × Nat) :=
  value_counts (records.map (fun r => r.compliance))

/-! ### Schema migrator (`load_audit_data`, lines 38-81) -/

/-- Embedding of a pandas DataFrame: an ordered list of column labels and
rows aligned positionally with the labels. -/
structure Table where
  cols : List String
  rows : List (List String)
deriving DecidableEq, Repr

/-- Canonical column set `expected_columns` (lines 43-44). -/
def canonicalColumns : List String :=
  ["Organization", "Standard", "Control ID", "Control Name", "Compliance",
   "Risk Level", "Evidence/Remarks", "Remediation Plan", "Auditor"]

/-- Column-presence test `col in df.columns`. -/
def Table.hasCol (t : Table) (c : String) : Bool :=
  t.cols.contains c

/-- Embedding of `df[col] = ""` for an absent column: pandas appends the
new column at the end with the given scalar broadcast to every row. -/
def Table.addEmptyCol (t : Table) (c : String) : Table :=
  { cols := t.cols ++ [c], rows := t.rows.map (fun r => r ++ [""]) }

/-- Loop of lines 67-69: add every still-missing expected column with the
empty-string default. -/
def Table.addMissing (t : Table) (cs : List String) : Table :=
  cs.foldl (fun acc c => if acc.hasCol c then acc else acc.addEmptyCol c) t

/-- Value of column `c` in row `r` of table `t` (positional lookup through
the column labels). -/
def Table.cellOfRow (t : Table) (r : List String) (c : String) : String :=
  r.getD (t.cols.indexOf c) ""

/-- Embedding of `df[expected_columns]` (line 71): column selection /
reordering. -/
def Table.select (t : Table) (cs : List String) : Table :=
  { cols := cs, rows := t.rows.map (fun r => cs.map (fun c => t.cellOfRow r c)) }

/-- The `column_mapping` dictionary of lines 54-63 (every entry maps a name
to itself in the shipped code). -/
def column_mapping : List (String × String) :=
  [("Organization", "Organization"), ("Standard", "Standard"),
   ("Control ID", "Control ID"), ("Control Name", "Control Name"),
   ("Compliance", "Compliance"), ("Evidence/Remarks", "Evidence/Remarks"),
   ("Auditor", "Auditor")]

/-- Renaming of one column label under `column_mapping`
(`df.rename(columns=column_mapping)` leaves unmapped labels unchanged). -/
def applyMapping (c : String) : String :=
  (column_mapping.lookup c).getD c

/-- Embedding of `df.rename(columns=column_mapping, inplace=True)`
(line 64). -/
def Table.renameCols (t : Table) : Table :=
  { t with cols := t.cols.map applyMapping }

/-- Migration body of `load_audit_data` (lines 41-72): an already-canonical
table passes through verbatim; otherwise rename, add missing canonical
columns with the empty string, and reorder to canonical order. -/
def migrate (t : Table) : Table :=
  if canonicalColumns.all (fun c => t.hasCol c) then t
  else ((t.renameCols).addMissing canonicalColumns).select canonicalColumns

/-- Outcome of `pd.read_csv` on the load target: the file may be absent
(`FileNotFoundError`), unparsable (`pd.errors.ParserError`), or a parsed
table. -/
inductive ReadResult where
  | fileNotFound
  | parserError (msg : String)
  | table (t : Table)
deriving DecidableEq, Repr

/-- Full `load_audit_data` (lines 38-81): the try-body migrates the parsed
table; both except-branches (parse failure, line 73, and missing file,
line 78) return `None`. -/
def load_audit_data : ReadResult → Option Table
  | ReadResult.fileNotFound => none
  | ReadResult.parserError _ => none
  | ReadResult.table t => some (migrate t)

/-! ### Record reconciler (`conduct_audit`, lines 138-190) -/

/-- Radio options of line 164. -/
def complianceOptions : List String :=
  ["Yes", "No", "Partially Implemented"]

/-- Selectbox options of line 168. -/
def riskOptions : List String :=
  ["Low", "Medium", "High"]

/-- Embedding of Python `list.index(v)`: first index of `v`, raising
`ValueError` when `v` is not in the list. -/
def pyIndex (options : List String) (v : String) : Except String Nat :=
  match options.indexOf? v with
  | some i => Except.ok i
  | none => Except.error ("ValueError: " ++ v ++ " is not in list")

/-- Default widget index of lines 165-166 / 169-170:
`options.index(v) if v else 0`. -/
def widgetIndex (options : List String) (v : String) : Except String Nat :=
  if v = "" then Except.ok 0 else pyIndex options v

/-- Row selection of lines 154-155:
`loaded_data[(loaded_data['Control ID'] == control_id) & (loaded_data['Standard'] == standard_name)]`. -/
def matchingRows (rows : List AuditRecord) (standardName : String) (c : Control) :
    List AuditRecord :=
  rows.filter (fun r => r.controlId == c.id && r.standard == standardName)

/-- Defaults of lines 147-161: `(compliance, risk_level, evidence,
remediation)` prefilled from the first matching prior row (`.iloc[0]`),
or the literal defaults `("", "Low", "", "")`. -/
def prefill : Option (List AuditRecord) → String → Control →
    String × String × String × String
  | none, _, _ => ("", "Low", "", "")
  | some rows, standardName, c =>
    match matchingRows rows standardName c with
    | [] => ("", "Low", "", "")
    | m :: _ => (m.compliance, m.riskLevel, m.evidence, m.remediationPlan)

/-- Draft produced for one catalogue control (loop body of lines 141-188):
the widget-index computations of lines 165-166 and 169-170 run first and
can raise `ValueError`; on success the appended dictionary takes
organization, standard, control id and control name from the inputs and
the four prefill values as draft contents. -/
def reconcileControl (loadedData : Option (List AuditRecord))
    (standardName organization auditor : String) (c : Control) :
    Except String AuditRecord :=
  match widgetIndex complianceOptions (prefill loadedData standardName c).1 with
  | Except.error e => Except.error e
  | Except.ok _ =>
    match widgetIndex riskOptions (prefill loadedData standardName c).2.1 with
    | Except.error e => Except.error e
    | Except.ok _ =>
      Except.ok { organization := organization, standard := standardName,
                  controlId := c.id, controlName := c.name,
                  compliance := (prefill loadedData standardName c).1,
                  riskLevel := (prefill loadedData standardName c).2.1,
                  evidence := (prefill loadedData standardName c).2.2.1,
                  remediationPlan := (prefill loadedData standardName c).2.2.2,
                  auditor := auditor }

/-- Full `conduct_audit` (lines 138-190): one draft per catalogue control,
in catalogue order; a raised `ValueError` aborts the loop. -/
def conduct_audit : List Control → String → String → String →
    Option (List AuditRecord) → Except String (List AuditRecord)
  | [], _, _, _, _ => Except.ok []
  | c :: cs, standardName, organization, auditor, loadedData =>
    match reconcileControl loadedData standardName organization auditor c with
    | Except.error e => Except.error e
    | Except.ok r =>
      match conduct_audit cs standardName organization auditor loadedData with
      | Except.error e => Except.error e
      | Except.ok rest => Except.ok (r :: rest)

/-- View of one table row as an audit record through the canonical column
labels (how `conduct_audit` reads `loaded_data` fields by column name). -/
def recordOfRow (t : Table) (r : List String) : AuditRecord :=
  { organization := t.cellOfRow r "Organization",
    standard := t.cellOfRow r "Standard",
    controlId := t.cellOfRow r "Control ID",
    controlName := t.cellOfRow r "Control Name",
    compliance := t.cellOfRow r "Compliance",
    riskLevel := t.cellOfRow r "Risk Level",
    evidence := t.cellOfRow r "Evidence/Remarks",
    remediationPlan := t.cellOfRow r "Remediation Plan",
    auditor := t.cellOfRow r "Auditor" }

/-- View of a table as a list of audit records. -/
def Table.toRecords (t : Table) : List AuditRecord :=
  t.rows.map (fun r => recordOfRow t r)

/-- Composition performed by `main` (lines 202-212): the result of
`load_audit_data` is passed as `loaded_data` to `conduct_audit`. -/
def auditPipeline (controls : List Control)
    (standardName organization auditor : String) (src : ReadResult) :
    Except String (List AuditRecord) :=
  conduct_audit controls standardName organization auditor
    ((load_audit_data src).map Table.toRecords)

/-! ### Log persister (`save_audit_log`, lines 84-98) -/

/-- Filesystem model: association list from paths to file contents, most
recent write first. -/
abbrev FS : Type := List (String × String)

/-- Content stored at path `p`, when present. -/
def FS.find (fs : FS) (p : String) : Option String :=
  List.lookup p fs

/-- Embedding of `os.path.exists`. -/
def FS.pathExists (fs : FS) (p : String) : Bool :=
  (FS.find fs p).isSome

/-- Embedding of writing a file at `p` (creates or overwrites). -/
def FS.write (fs : FS) (p c : String) : FS :=
  (p, c) :: List.filter (fun e => e.1 != p) fs

/-- Embedding of `os.rename` (no-op when the source is absent; overwrites
an existing destination, as POSIX rename does). -/
def FS.renameFile (fs : FS) (src dst : String) : FS :=
  match FS.find fs src with
  | none => fs
  | some c => FS.write (List.filter (fun e => e.1 != src) fs) dst c

/-- Embedding of Python `str.replace` on character lists: replace every
non-overlapping occurrence of `pat`, scanning left to right; `fuel` bounds
the recursion by the input length. -/
def replaceChars : Nat → List Char → List Char → List Char → List Char
  | 0, s, _, _ => s
  | _, [], _, _ => []
  | fuel + 1, c :: cs, pat, rep =>
    if pat.isPrefixOf (c :: cs) then
      rep ++ replaceChars fuel (List.drop pat.length (c :: cs)) pat rep
    else c :: replaceChars fuel cs pat rep

/-- Embedding of Python `str.replace` on strings (used with the non-empty
pattern ".csv" at line 92). -/
def strReplace (s pat rep : String) : String :=
  String.mk (replaceChars s.data.length s.data pat.data rep.data)

/-- Directory constant `AUDIT_LOG_DIR` (line 12). -/
def AUDIT_LOG_DIR : String := "audit_logs"

/-- Target path of line 88:
`f"{AUDIT_LOG_DIR}/{organization_name}_audit_{timestamp}.csv"`. -/
def targetFilename (organization timestamp : String) : String :=
  AUDIT_LOG_DIR ++ "/" ++ organization ++ "_audit_" ++ timestamp ++ ".csv"

/-- Backup path of line 92:
`filename.replace(".csv", f"_v{...strftime('%Y%m%d%H%M%S')}.csv")`. -/
def backupFilename (organization timestamp backupTimestamp : String) : String :=
  strReplace (targetFilename organization timestamp) ".csv"
    ("_v" ++ backupTimestamp ++ ".csv")

/-- Full `save_audit_log` (lines 84-98): if the target path already holds a
file, rename it to the backup path first, then write the new content at the
target path. `timestamp` is `now.strftime("%Y%m%d_%H%M%S")` of line 87 and
`backupTimestamp` the second `datetime.now()` of line 92. -/
def save_audit_log (fs : FS) (content organization timestamp backupTimestamp : String) :
    FS :=
  let filename := targetFilename organization timestamp
  let fs1 :=
    if FS.pathExists fs filename then
      FS.renameFile fs filename (backupFilename organization timestamp backupTimestamp)
    else fs
  FS.write fs1 filename content

/-! ### Concrete sample data for witnesses and counterexamples -/

/-- Sample record with compliance "Yes". -/
def recYes : AuditRecord :=
  ⟨"Example Organization", "ISO 27001", "A.5.1",
   "Policies for information security", "Yes", "Low", "", "", "admin"⟩

/-- Sample record with compliance "No". -/
def recNo : AuditRecord :=
  { recYes with controlId := "A.5.2", compliance := "No" }

/-- Second sample record with compliance "No". -/
def recNo2 : AuditRecord :=
  { recNo with controlId := "A.5.3" }

/-- First catalogue control of `ISO_27001_CONTROLS`. -/
def c1x : Control :=
  ⟨"A.5.1", "Policies for information security",
   "Information security policies should be defined and approved by management."⟩

/-- Second catalogue control of `ISO_27001_CONTROLS`. -/
def c2x : Control :=
  ⟨"A.5.2", "Information security roles and responsibilities",
   "Information security roles and responsibilities should be defined and allocated."⟩

/-- Prior record matching `c1x` with compliance "Yes". -/
def priorYes : AuditRecord := recYes

/-- Prior record matching `c1x` whose Compliance holds a string outside the
radio options. -/
def priorBadCompliance : AuditRecord :=
  { recYes with compliance := "Maybe" }

/-- Prior record matching `c1x` whose Risk Level holds a string outside the
selectbox options. -/
def priorBadRisk : AuditRecord :=
  { recYes with riskLevel := "Severe" }

/-- Prefilled draft for `c1x` in the two-control scenario (equal to
`recYes`). -/
def draftDefault : AuditRecord :=
  ⟨"Example Organization", "ISO 27001", "A.5.2",
   "Information security roles and responsibilities", "", "Low", "", "", "admin"⟩

/-- Drafts produced in the two-control scenario of C4: `c1x` prefilled from
`priorYes`, `c2x` on defaults. -/
def draftsScenario : List AuditRecord :=
  [recYes, draftDefault]

/-- Canonical sample table for the C5 witness. -/
def tCanonical : Table :=
  ⟨canonicalColumns,
   [["Example Organization", "ISO 27001", "A.5.1",
     "Policies for information security", "Yes", "Low", "", "", "admin"]]⟩

/-- Old-format sample table for the C6 witness. -/
def tOldFormat : Table :=
  ⟨["Organization", "Compliance"], [["o1", "Yes"], ["o2", "No"]]⟩

/-! ### Helper lemmas -/

/-- Step function of `firstSeen`. -/
def seenStep (acc : List String) (x : String) : List String :=
  if x ∈ acc then acc else acc ++ [x]

lemma firstSeen_eq_foldl (xs : List String) :
    firstSeen xs = xs.foldl seenStep [] := rfl

lemma mem_foldl_seenStep (xs : List String) :
    ∀ acc x, x ∈ xs.foldl seenStep acc ↔ x ∈ acc ∨ x ∈ xs := by
  induction xs with
  | nil => intro acc x; simp
  | cons y ys ih =>
    intro acc x
    rw [List.foldl_cons, ih]
    unfold seenStep
    by_cases hy : y ∈ acc
    · simp only [if_pos hy, List.mem_cons]
      constructor
      · rintro (h | h)
        · exact Or.inl h
        · exact Or.inr (Or.inr h)
      · rintro (h | h | h)
        · exact Or.inl h
        · exact Or.inl (h ▸ hy)
        · exact Or.inr h
    · simp only [if_neg hy, List.mem_append, List.mem_singleton, List.mem_cons]
      tauto

lemma nodup_foldl_seenStep (xs : List String) :
    ∀ acc, acc.Nodup → (xs.foldl seenStep acc).Nodup := by
  induction xs with
  | nil => intro acc h; simpa using h
  | cons y ys ih =>
    intro acc h
    rw [List.foldl_cons]
    apply ih
    unfold seenStep
    by_cases hy : y ∈ acc
    · simpa [if_pos hy] using h
    · rw [if_neg hy]
      simp [List.nodup_append, h, hy]

lemma mem_firstSeen (xs : List String) (x : String) :
    x ∈ firstSeen xs ↔ x ∈ xs := by
  rw [firstSeen_eq_foldl, mem_foldl_seenStep]
  simp

lemma nodup_firstSeen (xs : List String) : (firstSeen xs).Nodup := by
  rw [firstSeen_eq_foldl]
  exact nodup_foldl_seenStep xs [] List.nodup_nil

lemma value_counts_perm (xs : List String) :
    (value_counts xs).Perm ((firstSeen xs).map (fun v => (v, xs.count v))) :=
  List.perm_insertionSort _ _

/-! ### Theorems: report engine -/

/-- C1: for every working set, the compliance percentage equals
`100 * yesCount / total`, and equals `0` when the total is `0`; the guard
`if total_controls > 0` means no division by zero is performed. -/
theorem compliance_percentage_correct (records : List AuditRecord) :
    compliance_percentage records =
      if records.length = 0 then 0
      else 100 * (yesCount records : ℚ) / (records.length : ℚ) := by
  unfold compliance_percentage
  rcases Nat.eq_zero_or_pos records.length with h | h
  · simp [h]
  · rw [if_pos h, if_neg (Nat.pos_iff_ne_zero.mp h)]
    ring

/-- C2: the gap list is exactly the subsequence of records whose compliance
equals "No", in input order; "Partially Implemented" records are never
gaps. -/
theorem gaps_correct (records : List AuditRecord) :
    (gaps records).Sublist records ∧
    (∀ r ∈ gaps records, r.compliance = "No") ∧
    (∀ r ∈ records, r.compliance = "No" → r ∈ gaps records) ∧
    (∀ r ∈ gaps records, r.compliance ≠ "Partially Implemented") := by
  refine ⟨List.filter_sublist _, ?_, ?_, ?_⟩
  · intro r hr
    have := List.of_mem_filter hr
    simpa using this
  · intro r hr hno
    exact List.mem_filter.mpr ⟨hr, by simp [hno]⟩
  · intro r hr
    have h : r.compliance = "No" := by
      have := List.of_mem_filter hr
      simpa using this
    simp [h]

/-- Witness for C2 at the concrete working set `[recYes, recNo]`. -/
theorem gaps_correct_witness :
    recNo ∈ gaps [recYes, recNo] ∧ recNo.compliance = "No" := by
  have h := gaps_correct [recYes, recNo]
  exact ⟨h.2.2.1 recNo (by simp) (by rfl), by rfl⟩

/-- C9 counterexample: on the working set `[Yes, No, No]` the category
counts come out `[("No", 2), ("Yes", 1)]` — descending by count, not in
first-seen order among the enum values (which would put "Yes" first). -/
theorem category_counts_counterexample :
    category_counts [recYes, recNo, recNo2] = [("No", 2), ("Yes", 1)] ∧
    category_counts [recYes, recNo, recNo2] ≠ [("Yes", 1), ("No", 2)] := by
  constructor
  · rfl
  · decide

/-- C9 amended: the category counts map each distinct compliance value
present to its count (each value present appears exactly once as a key),
with entries ordered by count in descending order. -/
theorem category_counts_spec (records : List AuditRecord) :
    (∀ p ∈ category_counts records,
       p.1 ∈ records.map (fun r => r.compliance) ∧
       p.2 = (records.map (fun r => r.compliance)).count p.1) ∧
    (∀ v ∈ records.map (fun r => r.compliance),
       (v, (records.map (fun r => r.compliance)).count v) ∈ category_counts records) ∧
    ((category_counts records).map Prod.fst).Nodup ∧
    (category_counts records).Pairwise (fun a b => b.2 ≤ a.2) := by
  set xs := records.map (fun r => r.compliance) with hxs
  have hperm := value_counts_perm xs
  refine ⟨?_, ?_, ?_, ?_⟩
  · intro p hp
    have hp' := hperm.mem_iff.mp hp
    obtain ⟨v, hv, hpv⟩ := List.mem_map.mp hp'
    constructor
    · rw [← hpv]
      exact (mem_firstSeen xs v).mp hv
    · rw [← hpv]
  · intro v hv
    apply hperm.mem_iff.mpr
    exact List.mem_map.mpr ⟨v, (mem_firstSeen xs v).mpr hv, rfl⟩
  · have hmapperm := hperm.map Prod.fst
    have h1 : ((value_counts xs).map Prod.fst).Nodup := by
      rw [List.Perm.nodup_iff hmapperm, List.map_map]
      have h2 : (Prod.fst ∘ fun v => (v, xs.count v)) = id := rfl
      rw [h2, List.map_id]
      exact nodup_firstSeen xs
    exact h1
  · haveI : IsTotal (String × Nat) (fun a b => b.2 ≤ a.2) :=
      ⟨fun a b => le_total b.2 a.2⟩
    haveI : IsTrans (String × Nat) (fun a b => b.2 ≤ a.2) :=
      ⟨fun _ _ _ hab hbc => le_trans hbc hab⟩
    exact List.sorted_insertionSort _ _

/-- Witness for C9 at the concrete working set `[recYes, recNo, recNo2]`. -/
theorem category_counts_spec_witness :
    ("No", 2) ∈ category_counts [recYes, recNo, recNo2] ∧
    (category_counts [recYes, recNo, recNo2]).Pairwise (fun a b => b.2 ≤ a.2) := by
  have h := category_counts_spec [recYes, recNo, recNo2]
  refine ⟨?_, h.2.2.2⟩
  have hm := h.2.1 "No" (by decide)
  have hc : (([recYes, recNo, recNo2].map (fun r => r.compliance)).count "No") = 2 := by
    decide
  rw [hc] at hm
  exact hm

/-! ### Helper lemmas: migrator -/

lemma lookup_getD_self (c : String) :
    ∀ m : List (String × String), (∀ p ∈ m, p.2 = p.1) →
      (List.lookup c m).getD c = c := by
  intro m
  induction m with
  | nil => intro _; rfl
  | cons p ps ih =>
    intro h
    obtain ⟨k, v⟩ := p
    rw [List.lookup_cons]
    cases hck : c == k with
    | false => exact ih (fun q hq => h q (List.mem_cons_of_mem _ hq))
    | true =>
      have hv : v = k := h (k, v) (List.mem_cons_self _ _)
      have hc : c = k := eq_of_beq hck
      simp [hv, hc]

lemma applyMapping_id (c : String) : applyMapping c = c :=
  lookup_getD_self c column_mapping (by decide)

lemma renameCols_eq (t : Table) : t.renameCols = t := by
  have hfun : applyMapping = id := funext applyMapping_id
  unfold Table.renameCols
  rw [hfun, List.map_id]

lemma addMissing_shape : ∀ (cs : List String) (t : Table), ∃ extra : List String,
    (t.addMissing cs).cols = t.cols ++ extra ∧
    (t.addMissing cs).rows =
      t.rows.map (fun r => r ++ List.replicate extra.length "") := by
  intro cs
  induction cs with
  | nil =>
    intro t
    exact ⟨[], by simp [Table.addMissing], by simp [Table.addMissing]⟩
  | cons c cs ih =>
    intro t
    have hstep : Table.addMissing t (c :: cs) =
        Table.addMissing (if t.hasCol c then t else t.addEmptyCol c) cs := rfl
    rw [hstep]
    by_cases hc : t.hasCol c = true
    · rw [if_pos hc]
      exact ih t
    · rw [if_neg hc]
      obtain ⟨extra, hcols, hrows⟩ := ih (t.addEmptyCol c)
      refine ⟨c :: extra, ?_, ?_⟩
      · rw [hcols]
        simp [Table.addEmptyCol]
      · rw [hrows]
        simp only [Table.addEmptyCol, List.map_map, List.length_cons,
          List.replicate_succ]
        apply List.map_congr_left
        intro r _
        simp

lemma indexOf_append_of_notMem (c : String) :
    ∀ l l' : List String, c ∉ l →
      List.indexOf c (l ++ l') = l.length + List.indexOf c l' := by
  intro l
  induction l with
  | nil => intro l' _; simp
  | cons a l ih =>
    intro l' hc
    have ha : (a == c) = false := by
      apply beq_eq_false_iff_ne.mpr
      intro h
      subst h
      exact hc (List.mem_cons_self a l)
    rw [List.cons_append, List.indexOf_cons, ha]
    simp only [cond_false]
    rw [ih l' (fun h => hc (List.mem_cons_of_mem a h))]
    simp only [List.length_cons]
    omega

lemma getD_replicate_self (d : String) : ∀ (k j : Nat),
    (List.replicate k d).getD j d = d := by
  intro k
  induction k with
  | zero => intro j; rfl
  | succ k ih =>
    intro j
    cases j with
    | zero => rw [List.replicate_succ, List.getD_cons_zero]
    | succ j => rw [List.replicate_succ, List.getD_cons_succ]; exact ih j

lemma getD_map_indexOf (f : String → String) (c : String) :
    ∀ cs : List String, c ∈ cs →
      (cs.map f).getD (List.indexOf c cs) "" = f c := by
  intro cs
  induction cs with
  | nil => intro h; cases h
  | cons a l ih =>
    intro h
    rw [List.map_cons, List.indexOf_cons]
    cases hac : a == c with
    | true =>
      have haeq : a = c := eq_of_beq hac
      simp [haeq]
    | false =>
      have hne : a ≠ c := beq_eq_false_iff_ne.mp hac
      have hcl : c ∈ l := by
        rcases List.mem_cons.mp h with h1 | h1
        · exact absurd h1.symm hne
        · exact h1
      simp only [cond_false, List.getD_cons_succ]
      exact ih hcl

lemma select_cols (t : Table) (cs : List String) : (t.select cs).cols = cs := rfl

lemma select_rows (t : Table) (cs : List String) :
    (t.select cs).rows = t.rows.map (fun r => cs.map (fun c => t.cellOfRow r c)) := rfl

lemma hasCol_false_iff (t : Table) (c : String) :
    t.hasCol c = false ↔ c ∉ t.cols := by
  unfold Table.hasCol
  rw [show t.cols.contains c = t.cols.elem c from rfl]
  constructor
  · intro h hmem
    rw [List.elem_iff.mpr hmem] at h
    cases h
  · intro h
    cases he : t.cols.elem c
    · rfl
    · exact absurd (List.elem_iff.mp he) h

/-! ### Theorems: schema migrator -/

/-- C5: a table that already contains all nine canonical columns passes
through migration unchanged (identity transform, no reordering). -/
theorem migrate_canonical_identity (t : Table)
    (h : ∀ c ∈ canonicalColumns, t.hasCol c = true) :
    migrate t = t := by
  unfold migrate
  rw [if_pos (List.all_eq_true.mpr h)]

/-- Witness for C5 at a concrete canonical table. -/
theorem migrate_canonical_identity_witness : migrate tCanonical = tCanonical :=
  migrate_canonical_identity tCanonical (by decide)

/-- C6: migrating a rectangular table missing some canonical columns yields
a table whose columns are exactly the canonical ones in canonical order,
with the same number of rows, and with every previously-missing canonical
column filled with the empty string in every row. -/
theorem migrate_fills_missing (t : Table)
    (hwf : ∀ r ∈ t.rows, r.length = t.cols.length)
    (hmiss : ¬ (canonicalColumns.all (fun c => t.hasCol c) = true)) :
    (migrate t).cols = canonicalColumns ∧
    (migrate t).rows.length = t.rows.length ∧
    ∀ c ∈ canonicalColumns, t.hasCol c = false →
      ∀ r ∈ (migrate t).rows, r.getD (canonicalColumns.indexOf c) "" = "" := by
  have hmig : migrate t = (t.addMissing canonicalColumns).select canonicalColumns := by
    unfold migrate
    rw [if_neg hmiss, renameCols_eq]
  obtain ⟨extra, hcols, hrows⟩ := addMissing_shape canonicalColumns t
  refine ⟨?_, ?_, ?_⟩
  · rw [hmig, select_cols]
  · rw [hmig, select_rows, List.length_map, hrows, List.length_map]
  · intro c hc hmissc r' hr'
    rw [hmig, select_rows] at hr'
    obtain ⟨r2, hr2, hr2eq⟩ := List.mem_map.mp hr'
    rw [hrows] at hr2
    obtain ⟨r, hr, hreq⟩ := List.mem_map.mp hr2
    subst hr2eq
    rw [getD_map_indexOf _ c canonicalColumns hc]
    unfold Table.cellOfRow
    rw [hcols, indexOf_append_of_notMem c t.cols extra ((hasCol_false_iff t c).mp hmissc)]
    subst hreq
    rw [List.getD_append_right _ _ _ _ (by rw [hwf r hr]; omega)]
    rw [hwf r hr]
    rw [show t.cols.length + List.indexOf c extra - t.cols.length =
      List.indexOf c extra from by omega]
    exact getD_replicate_self "" extra.length (List.indexOf c extra)

/-- Witness for C6 at a concrete old-format table: the Risk Level column is
added empty and both rows survive. -/
theorem migrate_fills_missing_witness :
    (migrate tOldFormat).cols = canonicalColumns ∧
    (migrate tOldFormat).rows.length = tOldFormat.rows.length ∧
    ∀ r ∈ (migrate tOldFormat).rows,
      r.getD (canonicalColumns.indexOf "Risk Level") "" = "" := by
  have h := migrate_fills_missing tOldFormat (by decide) (by decide)
  exact ⟨h.1, h.2.1, h.2.2 "Risk Level" (by decide) (by decide)⟩

/-! ### Helper lemmas: reconciler -/

lemma prefill_none (s : String) (c : Control) :
    prefill none s c = ("", "Low", "", "") := rfl

lemma prefill_some_nil (rows : List AuditRecord) (s : String) (c : Control)
    (h : matchingRows rows s c = []) :
    prefill (some rows) s c = ("", "Low", "", "") := by
  simp only [prefill, h]

lemma prefill_some_cons (rows : List AuditRecord) (s : String) (c : Control)
    (m : AuditRecord) (rest : List AuditRecord)
    (h : matchingRows rows s c = m :: rest) :
    prefill (some rows) s c =
      (m.compliance, m.riskLevel, m.evidence, m.remediationPlan) := by
  simp only [prefill, h]

lemma widgetIndex_ok (options : List String) (v : String)
    (h : v = "" ∨ v ∈ options) : ∃ i, widgetIndex options v = Except.ok i := by
  unfold widgetIndex
  by_cases hv : v = ""
  · exact ⟨0, by rw [if_pos hv]⟩
  · rw [if_neg hv]
    rcases h with h | h
    · exact absurd h hv
    · unfold pyIndex
      cases hio : List.indexOf? v options with
      | some i => exact ⟨i, rfl⟩
      | none =>
        exfalso
        have hall := List.indexOf?_eq_none_iff.mp hio
        have := hall v h
        simp at this

lemma reconcileControl_ok_eq (ld : Option (List AuditRecord)) (s o a : String)
    (c : Control) (r : AuditRecord)
    (h : reconcileControl ld s o a c = Except.ok r) :
    r = { organization := o, standard := s, controlId := c.id,
          controlName := c.name, compliance := (prefill ld s c).1,
          riskLevel := (prefill ld s c).2.1,
          evidence := (prefill ld s c).2.2.1,
          remediationPlan := (prefill ld s c).2.2.2, auditor := a } := by
  unfold reconcileControl at h
  cases h1 : widgetIndex complianceOptions (prefill ld s c).1 with
  | error e => rw [h1] at h; cases h
  | ok i =>
    rw [h1] at h
    cases h2 : widgetIndex riskOptions (prefill ld s c).2.1 with
    | error e => rw [h2] at h; cases h
    | ok j =>
      rw [h2] at h
      injection h with h'
      exact h'.symm

lemma reconcileControl_isOk (ld : Option (List AuditRecord)) (s o a : String)
    (c : Control)
    (hc : (prefill ld s c).1 = "" ∨ (prefill ld s c).1 ∈ complianceOptions)
    (hr : (prefill ld s c).2.1 = "" ∨ (prefill ld s c).2.1 ∈ riskOptions) :
    ∃ r, reconcileControl ld s o a c = Except.ok r := by
  obtain ⟨i, hi⟩ := widgetIndex_ok complianceOptions (prefill ld s c).1 hc
  obtain ⟨j, hj⟩ := widgetIndex_ok riskOptions (prefill ld s c).2.1 hr
  refine ⟨{ organization := o, standard := s, controlId := c.id,
            controlName := c.name, compliance := (prefill ld s c).1,
            riskLevel := (prefill ld s c).2.1,
            evidence := (prefill ld s c).2.2.1,
            remediationPlan := (prefill ld s c).2.2.2, auditor := a }, ?_⟩
  unfold reconcileControl
  rw [hi, hj]

lemma matchingRows_head (rows : List AuditRecord) (s : String) (c : Control)
    (m : AuditRecord) (rest : List AuditRecord)
    (h : matchingRows rows s c = m :: rest) :
    m ∈ rows ∧ m.controlId = c.id ∧ m.standard = s := by
  have hm : m ∈ matchingRows rows s c := by
    rw [h]; exact List.mem_cons_self m rest
  have hf := List.mem_filter.mp hm
  have hb := hf.2
  simp only [Bool.and_eq_true, beq_iff_eq] at hb
  exact ⟨hf.1, hb.1, hb.2⟩

lemma prefill_valid (ld : Option (List AuditRecord)) (s : String)
    (controls : List Control) (c : Control) (hcmem : c ∈ controls)
    (hval : ∀ rows, ld = some rows → ∀ r ∈ rows,
      (r.standard = s ∧ ∃ c' ∈ controls, r.controlId = c'.id) →
      (r.compliance = "" ∨ r.compliance ∈ complianceOptions) ∧
      (r.riskLevel = "" ∨ r.riskLevel ∈ riskOptions)) :
    ((prefill ld s c).1 = "" ∨ (prefill ld s c).1 ∈ complianceOptions) ∧
    ((prefill ld s c).2.1 = "" ∨ (prefill ld s c).2.1 ∈ riskOptions) := by
  cases ld with
  | none =>
    rw [prefill_none]
    exact ⟨Or.inl rfl, Or.inr (by decide)⟩
  | some rows =>
    cases hmr : matchingRows rows s c with
    | nil =>
      rw [prefill_some_nil rows s c hmr]
      exact ⟨Or.inl rfl, Or.inr (by decide)⟩
    | cons m rest =>
      rw [prefill_some_cons rows s c m rest hmr]
      obtain ⟨hmem, hcid, hstd⟩ := matchingRows_head rows s c m rest hmr
      exact hval rows rfl m hmem ⟨hstd, c, hcmem, hcid⟩

lemma conduct_audit_ok_length : ∀ (controls : List Control) (s o a : String)
    (ld : Option (List AuditRecord)) (ds : List AuditRecord),
    conduct_audit controls s o a ld = Except.ok ds →
    ds.length = controls.length := by
  intro controls
  induction controls with
  | nil =>
    intro s o a ld ds h
    unfold conduct_audit at h
    injection h with h'
    rw [← h']
    rfl
  | cons c cs ih =>
    intro s o a ld ds h
    unfold conduct_audit at h
    cases h1 : reconcileControl ld s o a c with
    | error e => rw [h1] at h; cases h
    | ok r =>
      rw [h1] at h
      cases h2 : conduct_audit cs s o a ld with
      | error e => rw [h2] at h; cases h
      | ok rest =>
        rw [h2] at h
        injection h with h'
        rw [← h']
        simp [ih s o a ld rest h2]

lemma conduct_audit_ok_get : ∀ (controls : List Control) (s o a : String)
    (ld : Option (List AuditRecord)) (ds : List AuditRecord),
    conduct_audit controls s o a ld = Except.ok ds →
    ∀ i (hi : i < controls.length) (hi' : i < ds.length),
      reconcileControl ld s o a (controls.get ⟨i, hi⟩) =
        Except.ok (ds.get ⟨i, hi'⟩) := by
  intro controls
  induction controls with
  | nil =>
    intro s o a ld ds h i hi
    exact absurd hi (by simp)
  | cons c cs ih =>
    intro s o a ld ds h i hi hi'
    unfold conduct_audit at h
    cases h1 : reconcileControl ld s o a c with
    | error e => rw [h1] at h; cases h
    | ok r =>
      rw [h1] at h
      cases h2 : conduct_audit cs s o a ld with
      | error e => rw [h2] at h; cases h
      | ok rest =>
        rw [h2] at h
        injection h with h'
        subst h'
        cases i with
        | zero => exact h1
        | succ i =>
          exact ih s o a ld rest h2 i
            (by simp only [List.length_cons] at hi; omega)
            (by simp only [List.length_cons] at hi'; omega)

lemma conduct_audit_isOk : ∀ (controls : List Control) (s o a : String)
    (ld : Option (List AuditRecord)),
    (∀ c ∈ controls, ∃ r, reconcileControl ld s o a c = Except.ok r) →
    ∃ ds, conduct_audit controls s o a ld = Except.ok ds := by
  intro controls
  induction controls with
  | nil => intro s o a ld _; exact ⟨[], rfl⟩
  | cons c cs ih =>
    intro s o a ld h
    obtain ⟨r, hr⟩ := h c (List.mem_cons_self c cs)
    obtain ⟨rest, hrest⟩ := ih s o a ld (fun c' hc' => h c' (List.mem_cons_of_mem c hc'))
    refine ⟨r :: rest, ?_⟩
    unfold conduct_audit
    rw [hr, hrest]

/-! ### Theorems: record reconciler -/

/-- C3 counterexample: against the prior log `[priorBadCompliance]` (a
matching record whose Compliance is the string "Maybe"), reconciling the
one-control catalogue `[c1x]` raises `ValueError` instead of yielding one
draft. -/
theorem conduct_audit_counterexample :
    conduct_audit [c1x] "ISO 27001" "Example Organization" "admin"
      (some [priorBadCompliance]) =
    Except.error "ValueError: Maybe is not in list" := by
  rfl

/-- C3 amended: provided every prior record that matches a catalogue
control (same standard and control id) carries a Compliance value that is
empty or one of the radio options and a Risk Level value that is empty or
one of the selectbox options, reconciliation yields exactly one draft per
catalogue control, in catalogue order, with standard, control id, control
name and organization taken from the catalogue/organization inputs, and
with the first matching prior record winning for prefill. -/
theorem conduct_audit_reconcile (controls : List Control) (s o a : String)
    (ld : Option (List AuditRecord))
    (hval : ∀ rows, ld = some rows → ∀ r ∈ rows,
      (r.standard = s ∧ ∃ c' ∈ controls, r.controlId = c'.id) →
      (r.compliance = "" ∨ r.compliance ∈ complianceOptions) ∧
      (r.riskLevel = "" ∨ r.riskLevel ∈ riskOptions)) :
    ∃ ds, conduct_audit controls s o a ld = Except.ok ds ∧
      ds.length = controls.length ∧
      ∀ i (hi : i < controls.length) (hi' : i < ds.length),
        (ds.get ⟨i, hi'⟩).organization = o ∧
        (ds.get ⟨i, hi'⟩).standard = s ∧
        (ds.get ⟨i, hi'⟩).controlId = (controls.get ⟨i, hi⟩).id ∧
        (ds.get ⟨i, hi'⟩).controlName = (controls.get ⟨i, hi⟩).name ∧
        ∀ rows m rest, ld = some rows →
          matchingRows rows s (controls.get ⟨i, hi⟩) = m :: rest →
          (ds.get ⟨i, hi'⟩).compliance = m.compliance ∧
          (ds.get ⟨i, hi'⟩).riskLevel = m.riskLevel ∧
          (ds.get ⟨i, hi'⟩).evidence = m.evidence ∧
          (ds.get ⟨i, hi'⟩).remediationPlan = m.remediationPlan := by
  obtain ⟨ds, hds⟩ := conduct_audit_isOk controls s o a ld (fun c hc =>
    reconcileControl_isOk ld s o a c
      (prefill_valid ld s controls c hc hval).1
      (prefill_valid ld s controls c hc hval).2)
  refine ⟨ds, hds, conduct_audit_ok_length controls s o a ld ds hds, ?_⟩
  intro i hi hi'
  have hrec := conduct_audit_ok_get controls s o a ld ds hds i hi hi'
  have heq := reconcileControl_ok_eq ld s o a _ _ hrec
  rw [heq]
  refine ⟨rfl, rfl, rfl, rfl, ?_⟩
  intro rows m rest hld hmr
  subst hld
  simp only [prefill_some_cons rows s (controls.get ⟨i, hi⟩) m rest hmr]
  exact ⟨trivial, trivial, trivial, trivial⟩

/-- Witness for C3 at the two-control catalogue and the prior log
`[priorYes]`. -/
theorem conduct_audit_reconcile_witness :
    ∃ ds, conduct_audit [c1x, c2x] "ISO 27001" "Example Organization" "admin"
        (some [priorYes]) = Except.ok ds ∧ ds.length = 2 := by
  obtain ⟨ds, h1, h2, _⟩ := conduct_audit_reconcile [c1x, c2x] "ISO 27001"
    "Example Organization" "admin" (some [priorYes])
    (by
      intro rows hrows r hr _
      injection hrows with hrows
      rw [← hrows] at hr
      have hrp : r = priorYes := by simpa using hr
      subst hrp
      decide)
  exact ⟨ds, h1, h2⟩

/-- C4: every catalogue control without a matching record in the prior log
gets the defaults: compliance unset (empty), risk level "Low", empty
evidence and empty remediation plan. -/
theorem conduct_audit_defaults (controls : List Control) (s o a : String)
    (ld : Option (List AuditRecord)) (ds : List AuditRecord)
    (hok : conduct_audit controls s o a ld = Except.ok ds)
    (i : Nat) (hi : i < controls.length) (hi' : i < ds.length)
    (hnone : ∀ rows, ld = some rows →
      matchingRows rows s (controls.get ⟨i, hi⟩) = []) :
    (ds.get ⟨i, hi'⟩).compliance = "" ∧
    (ds.get ⟨i, hi'⟩).riskLevel = "Low" ∧
    (ds.get ⟨i, hi'⟩).evidence = "" ∧
    (ds.get ⟨i, hi'⟩).remediationPlan = "" := by
  have hrec := conduct_audit_ok_get controls s o a ld ds hok i hi hi'
  have heq := reconcileControl_ok_eq ld s o a _ _ hrec
  have hp : prefill ld s (controls.get ⟨i, hi⟩) = ("", "Low", "", "") := by
    cases ld with
    | none => rfl
    | some rows => exact prefill_some_nil rows s _ (hnone rows rfl)
  rw [heq, hp]
  exact ⟨rfl, rfl, rfl, rfl⟩

/-- Witness for C4: in the two-control scenario with a prior record only
for `A.5.1`, the second draft is the all-defaults record. -/
theorem conduct_audit_defaults_witness :
    (draftsScenario.get ⟨1, by decide⟩).compliance = "" ∧
    (draftsScenario.get ⟨1, by decide⟩).riskLevel = "Low" ∧
    (draftsScenario.get ⟨1, by decide⟩).evidence = "" ∧
    (draftsScenario.get ⟨1, by decide⟩).remediationPlan = "" :=
  conduct_audit_defaults [c1x, c2x] "ISO 27001" "Example Organization" "admin"
    (some [priorYes]) draftsScenario (by rfl) 1 (by decide) (by decide)
    (by
      intro rows hrows
      injection hrows with hrows
      rw [← hrows]
      decide)

/-- C10: reconciliation is only total on prior values inside the widget
option sets: a matching prior record with Compliance "Maybe" or with Risk
Level "Severe" makes `conduct_audit` raise `ValueError`, while the same
record with valid values reconciles fine. -/
theorem conduct_audit_invalid_values :
    conduct_audit [c1x] "ISO 27001" "Example Organization" "admin"
        (some [priorBadCompliance]) =
      Except.error "ValueError: Maybe is not in list" ∧
    conduct_audit [c1x] "ISO 27001" "Example Organization" "admin"
        (some [priorBadRisk]) =
      Except.error "ValueError: Severe is not in list" ∧
    (conduct_audit [c1x] "ISO 27001" "Example Organization" "admin"
        (some [priorYes])).isOk = true := by
  exact ⟨rfl, rfl, rfl⟩

/-! ### Theorems: loader error handling -/

/-- C7 counterexample: a malformed file and an absent file produce the very
same `none` result from `load_audit_data`, so the two failure states are
not observably distinct to the caller; and on a parse failure the pipeline
does fall back to reconciling with no prior data, succeeding as if the
file were absent. -/
theorem load_failure_counterexample :
    load_audit_data (ReadResult.parserError "malformed delimiters") =
      load_audit_data ReadResult.fileNotFound ∧
    (auditPipeline [c1x] "ISO 27001" "Example Organization" "admin"
      (ReadResult.parserError "malformed delimiters")).isOk = true := by
  exact ⟨rfl, rfl⟩

/-- C7 amended: both load failures return the same `none` sentinel (they
are distinguished only by a displayed message, not by the returned value),
and the caller reconciles with no prior data in both cases — a parse
failure is treated exactly like an absent file downstream. -/
theorem load_failure_collapse (controls : List Control) (s o a msg : String) :
    load_audit_data (ReadResult.parserError msg) = none ∧
    load_audit_data ReadResult.fileNotFound = none ∧
    auditPipeline controls s o a (ReadResult.parserError msg) =
      auditPipeline controls s o a ReadResult.fileNotFound := by
  exact ⟨rfl, rfl, rfl⟩

/-! ### Helper lemmas: persister -/

lemma find_write_self (fs : FS) (p c : String) :
    FS.find (FS.write fs p c) p = some c := by
  unfold FS.find FS.write
  rw [List.lookup_cons]
  simp

lemma lookup_filter_ne (q p : String) (hqp : q ≠ p) :
    ∀ fs : List (String × String),
      List.lookup q (List.filter (fun e => e.1 != p) fs) = List.lookup q fs := by
  intro fs
  induction fs with
  | nil => rfl
  | cons e es ih =>
    obtain ⟨k, v⟩ := e
    by_cases hkp : k = p
    · subst hkp
      rw [List.filter_cons_of_neg (by simp)]
      rw [ih, List.lookup_cons]
      have hqk : (q == k) = false := beq_eq_false_iff_ne.mpr hqp
      rw [hqk]
    · rw [List.filter_cons_of_pos (by simpa using hkp)]
      rw [List.lookup_cons, List.lookup_cons]
      cases hqk : q == k
      · exact ih
      · rfl

lemma find_write_ne (fs : FS) (p q c : String) (h : q ≠ p) :
    FS.find (FS.write fs p c) q = FS.find fs q := by
  unfold FS.find FS.write
  rw [List.lookup_cons]
  have hqp : (q == p) = false := beq_eq_false_iff_ne.mpr h
  rw [hqp]
  exact lookup_filter_ne q p h fs

/-! ### Theorems: log persister -/

/-- C8: starting from a state with no file at the target path, two saves
with the same second-level timestamp (hence the same target filename)
leave two distinct files: the first save's content survives at the backup
path (the pre-existing file is renamed before the new write) and the
second save's content sits at the target path — nothing is overwritten in
place. -/
theorem save_twice_no_loss (fs : FS) (c1 c2 o ts bts1 bts2 : String)
    (hfree : FS.find fs (targetFilename o ts) = none)
    (hneq : backupFilename o ts bts2 ≠ targetFilename o ts) :
    FS.find (save_audit_log (save_audit_log fs c1 o ts bts1) c2 o ts bts2)
        (targetFilename o ts) = some c2 ∧
    FS.find (save_audit_log (save_audit_log fs c1 o ts bts1) c2 o ts bts2)
        (backupFilename o ts bts2) = some c1 := by
  have hex1 : FS.pathExists fs (targetFilename o ts) = false := by
    unfold FS.pathExists
    rw [hfree]
    rfl
  have hs1 : save_audit_log fs c1 o ts bts1 = FS.write fs (targetFilename o ts) c1 := by
    simp only [save_audit_log, hex1]
    simp
  set s1 := save_audit_log fs c1 o ts bts1 with hs1def
  have hfind1 : FS.find s1 (targetFilename o ts) = some c1 := by
    rw [hs1]
    exact find_write_self fs (targetFilename o ts) c1
  have hex2 : FS.pathExists s1 (targetFilename o ts) = true := by
    unfold FS.pathExists
    rw [hfind1]
    rfl
  have hren : FS.renameFile s1 (targetFilename o ts) (backupFilename o ts bts2) =
      FS.write (List.filter (fun e => e.1 != targetFilename o ts) s1)
        (backupFilename o ts bts2) c1 := by
    unfold FS.renameFile
    rw [hfind1]
  have hs2 : save_audit_log s1 c2 o ts bts2 =
      FS.write (FS.renameFile s1 (targetFilename o ts) (backupFilename o ts bts2))
        (targetFilename o ts) c2 := by
    simp only [save_audit_log, hex2]
    simp
  constructor
  · rw [hs2]
    exact find_write_self _ (targetFilename o ts) c2
  · rw [hs2, find_write_ne _ _ _ _ hneq, hren]
    exact find_write_self _ (backupFilename o ts bts2) c1

/-- Witness for C8: two concrete saves in the same second. -/
theorem save_twice_no_loss_witness :
    FS.find (save_audit_log (save_audit_log [] "content one" "Example Organization"
        "20250101_120000" "20250101120000") "content two" "Example Organization"
        "20250101_120000" "20250101120001")
      (targetFilename "Example Organization" "20250101_120000") = some "content two" ∧
    FS.find (save_audit_log (save_audit_log [] "content one" "Example Organization"
        "20250101_120000" "20250101120000") "content two" "Example Organization"
        "20250101_120000" "20250101120001")
      (backupFilename "Example Organization" "20250101_120000" "20250101120001") =
      some "content one" :=
  save_twice_no_loss [] "content one" "content two" "Example Organization"
    "20250101_120000" "20250101120000" "20250101120001" (by rfl) (by decide)
